import Mathlib

/-!
Verification of the authentication mechanism of the legal-infographics
backend (src/legal_infographics/main.py and src/create_users.py).

The Python functions `verify_password`, `get_password_hash`,
`authenticate_user`, `create_access_token`, `verify_token`, `get_users`
and the `/auth/login` handler are embedded below as executable Lean
functions.  Machine words are modelled as `Nat` reduced modulo `2 ^ 32`
where the underlying algorithm (SHA-256, from Python's `hashlib`)
requires wrap-around.  Bytes are `Nat` values below 256.
-/

namespace LegalInfographics

/-! ### SHA-256 (model of `hashlib.sha256(...).hexdigest()`) -/

/-- `2 ^ 32`, the word modulus of SHA-256. -/
def M32 : Nat := 4294967296

/-- Right rotation of a 32-bit word (input assumed `< M32`). -/
def rotr (n x : Nat) : Nat := ((x >>> n) ||| (x <<< (32 - n))) % M32

/-- SHA-256 choice function. -/
def ch (x y z : Nat) : Nat := (x &&& y) ^^^ ((x ^^^ 4294967295) &&& z)

/-- SHA-256 majority function. -/
def maj (x y z : Nat) : Nat := (x &&& y) ^^^ (x &&& z) ^^^ (y &&& z)

/-- SHA-256 big sigma 0. -/
def bigS0 (x : Nat) : Nat := rotr 2 x ^^^ rotr 13 x ^^^ rotr 22 x

/-- SHA-256 big sigma 1. -/
def bigS1 (x : Nat) : Nat := rotr 6 x ^^^ rotr 11 x ^^^ rotr 25 x

/-- SHA-256 small sigma 0. -/
def smS0 (x : Nat) : Nat := rotr 7 x ^^^ rotr 18 x ^^^ (x >>> 3)

/-- SHA-256 small sigma 1. -/
def smS1 (x : Nat) : Nat := rotr 17 x ^^^ rotr 19 x ^^^ (x >>> 10)

/-- The 64 SHA-256 round constants (in decimal). -/
def K256 : List Nat :=
  [1116352408, 1899447441, 3049323471, 3921009573,
   961987163, 1508970993, 2453635748, 2870763221,
   3624381080, 310598401, 607225278, 1426881987,
   1925078388, 2162078206, 2614888103, 3248222580,
   3835390401, 4022224774, 264347078, 604807628,
   770255983, 1249150122, 1555081692, 1996064986,
   2554220882, 2821834349, 2952996808, 3210313671,
   3336571891, 3584528711, 113926993, 338241895,
   666307205, 773529912, 1294757372, 1396182291,
   1695183700, 1986661051, 2177026350, 2456956037,
   2730485921, 2820302411, 3259730800, 3345764771,
   3516065817, 3600352804, 4094571909, 275423344,
   430227734, 506948616, 659060556, 883997877,
   958139571, 1322822218, 1537002063, 1747873779,
   1955562222, 2024104815, 2227730452, 2361852424,
   2428436474, 2756734187, 3204031479, 3329325298]

/-- The eight-word SHA-256 working state. -/
structure Hash8 where
  h0 : Nat
  h1 : Nat
  h2 : Nat
  h3 : Nat
  h4 : Nat
  h5 : Nat
  h6 : Nat
  h7 : Nat

/-- Initial SHA-256 hash state (in decimal). -/
def initH : Hash8 :=
  ⟨1779033703, 3144134277, 1013904242, 2773480762,
   1359893119, 2600822924, 528734635, 1541459225⟩

/-- Group a byte list into big-endian 32-bit words. -/
def bytesToWords : List Nat → List Nat
  | b0 :: b1 :: b2 :: b3 :: rest =>
      (b0 * 0x1000000 + b1 * 0x10000 + b2 * 0x100 + b3) :: bytesToWords rest
  | _ => []

/-- One message-schedule extension step, on the reversed word list. -/
def extendStep (rev : List Nat) : List Nat :=
  ((rev.getD 15 0 + smS0 (rev.getD 14 0) + rev.getD 6 0 + smS1 (rev.getD 1 0)) % M32) :: rev

/-- Iterate the schedule extension `n` times. -/
def extendN : Nat → List Nat → List Nat
  | 0, rev => rev
  | n + 1, rev => extendN n (extendStep rev)

/-- The 64-word message schedule of a 64-byte block. -/
def schedule (block : List Nat) : List Nat :=
  (extendN 48 (bytesToWords block).reverse).reverse

/-- One SHA-256 compression round; `kw` pairs the round constant with the
schedule word. -/
def round1 (s : Hash8) (kw : Nat × Nat) : Hash8 :=
  let t1 := (s.h7 + bigS1 s.h4 + ch s.h4 s.h5 s.h6 + kw.1 + kw.2) % M32
  let t2 := (bigS0 s.h0 + maj s.h0 s.h1 s.h2) % M32
  ⟨(t1 + t2) % M32, s.h0, s.h1, s.h2, (s.h3 + t1) % M32, s.h4, s.h5, s.h6⟩

/-- Compress one 64-byte block into the running state. -/
def compressBlock (st : Hash8) (block : List Nat) : Hash8 :=
  let f := (K256.zip (schedule block)).foldl round1 st
  ⟨(st.h0 + f.h0) % M32, (st.h1 + f.h1) % M32, (st.h2 + f.h2) % M32, (st.h3 + f.h3) % M32,
   (st.h4 + f.h4) % M32, (st.h5 + f.h5) % M32, (st.h6 + f.h6) % M32, (st.h7 + f.h7) % M32⟩

/-- The eight bytes of the 64-bit big-endian message length. -/
def lenBytes64 (n : Nat) : List Nat :=
  [(n >>> 56) &&& 255, (n >>> 48) &&& 255, (n >>> 40) &&& 255, (n >>> 32) &&& 255,
   (n >>> 24) &&& 255, (n >>> 16) &&& 255, (n >>> 8) &&& 255, n &&& 255]

/-- SHA-256 padding: append `0x80`, zero bytes, and the bit length. -/
def padMsg (m : List Nat) : List Nat :=
  m ++ 0x80 :: (List.replicate ((64 - (m.length + 9) % 64) % 64) 0 ++ lenBytes64 (8 * m.length))

/-- Split a byte list into 64-byte chunks (fuel-indexed for structural
recursion). -/
def chunks64F : Nat → List Nat → List (List Nat)
  | 0, _ => []
  | _ + 1, [] => []
  | fuel + 1, l => l.take 64 :: chunks64F fuel (l.drop 64)

/-- Split a byte list into 64-byte chunks. -/
def chunks64 (l : List Nat) : List (List Nat) := chunks64F l.length l

/-- The four big-endian bytes of a 32-bit word. -/
def wordBytes (w : Nat) : List Nat :=
  [(w >>> 24) &&& 255, (w >>> 16) &&& 255, (w >>> 8) &&& 255, w &&& 255]

/-- The 32 output bytes of a final hash state. -/
def hash8Bytes (s : Hash8) : List Nat :=
  wordBytes s.h0 ++ wordBytes s.h1 ++ wordBytes s.h2 ++ wordBytes s.h3 ++
  wordBytes s.h4 ++ wordBytes s.h5 ++ wordBytes s.h6 ++ wordBytes s.h7

/-- SHA-256 of a byte list, as 32 bytes. -/
def sha256Bytes (m : List Nat) : List Nat :=
  hash8Bytes ((chunks64 (padMsg m)).foldl compressBlock initH)

/-- UTF-8 encoding of one character (model of Python `str.encode()`). -/
def utf8Bytes (c : Char) : List Nat :=
  let n := c.toNat
  if n < 0x80 then [n]
  else if n < 0x800 then [0xc0 + n / 0x40, 0x80 + n % 0x40]
  else if n < 0x10000 then
    [0xe0 + n / 0x1000, 0x80 + (n / 0x40) % 0x40, 0x80 + n % 0x40]
  else
    [0xf0 + n / 0x40000, 0x80 + (n / 0x1000) % 0x40, 0x80 + (n / 0x40) % 0x40, 0x80 + n % 0x40]

/-- UTF-8 encoding of a character list. -/
def utf8List : List Char → List Nat
  | [] => []
  | c :: cs => utf8Bytes c ++ utf8List cs

/-- UTF-8 bytes of a string. -/
def strBytes (s : String) : List Nat := utf8List s.data

/-- The sixteen lowercase hexadecimal digits. -/
def hexDigits : List Char := "0123456789abcdef".data

/-- Lowercase hexadecimal digit of `n % 16`. -/
def hexDigit (n : Nat) : Char := hexDigits.getD (n % 16) '0'

/-- Lowercase hex encoding of a byte list (model of `bytes.hex()` and of
`hexdigest()`). -/
def hexOfBytes : List Nat → List Char
  | [] => []
  | b :: bs => hexDigit (b / 16) :: hexDigit b :: hexOfBytes bs

/-- Model of Python `hashlib.sha256(s.encode()).hexdigest()`. -/
def sha256hex (s : String) : String := String.mk (hexOfBytes (sha256Bytes (strBytes s)))

example : sha256hex "" = "e3b0c44298fc1c149afbf4c8996fb92427ae41e4649b934ca495991b7852b855" := by
  rfl

example : sha256hex "abc" = "ba7816bf8f01cfea414140de5dae2223b00361a396177a9cb410ff61f20015ad" := by
  rfl

/-! ### Credential Store (main.py lines 35-55, create_users.py lines 10-23) -/

/-- Split a character list at every occurrence of `sep`, keeping empty
pieces — the behaviour of Python `str.split(sep)`. -/
def splitCharsAux (sep : Char) : List Char → List Char → List (List Char)
  | acc, [] => [acc.reverse]
  | acc, c :: cs =>
      if c = sep then acc.reverse :: splitCharsAux sep [] cs
      else splitCharsAux sep (c :: acc) cs

/-- Model of Python `s.split('$')`. -/
def splitDollar (s : String) : List String :=
  (splitCharsAux '$' [] s.data).map String.mk

/-- Model of `verify_password` (main.py lines 35-42; duplicated in
create_users.py lines 16-23): `hashed_password.split('$')` must produce
exactly two pieces — otherwise the tuple unpacking raises and the bare
`except` returns `False` — and the SHA-256 hex digest of
`plain_password + salt` is compared with the stored hash. -/
def verify_password (plain_password hashed_password : String) : Bool :=
  match splitDollar hashed_password with
  | [salt, hash_value] => sha256hex (plain_password ++ salt) == hash_value
  | _ => false

/-- Model of `get_password_hash` (main.py lines 44-48): the freshly drawn
16 random bytes of `os.urandom(16)` are passed in as the `salt`
parameter; the function returns `salt.hex() + "$" + sha256hex(password
+ salt.hex())`. -/
def get_password_hash (password : String) (salt : List Nat) : String :=
  String.mk (hexOfBytes salt) ++ "$" ++ sha256hex (password ++ String.mk (hexOfBytes salt))

/-- `hash_password` (create_users.py lines 10-14) is textually identical
to `get_password_hash`. -/
def hash_password (password : String) (salt : List Nat) : String :=
  get_password_hash password salt

/-- Python dictionary lookup on an association list built by repeated
insertion: the last binding of a key wins. -/
def lookupLast (users : List (String × String)) (k : String) : Option String :=
  users.foldl (fun acc p => if p.1 == k then some p.2 else acc) none

/-- Model of `authenticate_user` (main.py lines 50-55), over the
credential mapping (the dictionary parsed from the `USERS` variable):
`if username not in users: return False` then
`return verify_password(password, users[username])`. -/
def authenticate_user (users : List (String × String)) (username password : String) : Bool :=
  if (users.map Prod.fst).contains username then
    match lookupLast users username with
    | some hp => verify_password password hp
    | none => false
  else false

/-! ### Token Service (main.py lines 57-66) -/

/-- Model of `create_access_token` (main.py lines 57-60):
`f"user_{username}_token"`. -/
def create_access_token (username : String) : String :=
  "user_" ++ username ++ "_token"

/-- Model of Python `str.startswith`. -/
def startsWithL : List Char → List Char → Bool
  | [], _ => true
  | _ :: _, [] => false
  | a :: as_, b :: bs => a == b && startsWithL as_ bs

/-- Model of Python `str.endswith`. -/
def endsWithL (s l : List Char) : Bool := startsWithL s.reverse l.reverse

/-- Model of `verify_token` (main.py lines 62-66): if the token starts
with `"user_"` and ends with `"_token"` return the slice `token[5:-6]`,
else `None`.  The Python slice clamps at zero, which `List.take` with
truncated `Nat` subtraction reproduces. -/
def verify_token (token : String) : Option String :=
  if startsWithL "user_".data token.data && endsWithL "_token".data token.data then
    some (String.mk ((token.data.take (token.data.length - 6)).drop 5))
  else none

/-- Token verification as run inside the service process: the `USERS`
environment value is ambient state available to every handler, but the
body of `verify_token` never reads it. -/
def verify_token_env (_usersEnv : Option String) (token : String) : Option String :=
  verify_token token

example : verify_password "a" "x$y" = false := by rfl

example : verify_password "wonderland"
    (get_password_hash "wonderland" [1, 2, 3, 4, 5, 6, 7, 8, 9, 10, 11, 12, 13, 14, 15, 16]) = true := by
  rfl

example : verify_password "a" ("$" ++ sha256hex "a") = true := by rfl

example : verify_token "user_alice_token" = some "alice" := by rfl

example : verify_token "user_token" = some "" := by rfl

example : verify_token "garbage" = none := by rfl

/-! ### Configuration loading (main.py lines 27-33)

`get_users` reads the `USERS` environment variable (default `"{}"`),
runs `json.loads` on it and returns whatever Python value comes back,
degrading to `{}` only on `json.JSONDecodeError`.  `PyVal` is the space
of Python values `json.loads` can produce; numeric tokens are kept as
their source text, since no claim depends on numeric values. -/

/-- A Python value produced by `json.loads`. -/
inductive PyVal where
  | null : PyVal
  | bool : Bool → PyVal
  | num : String → PyVal
  | str : String → PyVal
  | arr : List PyVal → PyVal
  | obj : List (String × PyVal) → PyVal

/-- JSON whitespace characters. -/
def jsonWs (c : Char) : Bool := c == ' ' || c == '\t' || c == '\n' || c == '\r'

/-- Drop leading JSON whitespace. -/
def skipWs (cs : List Char) : List Char := cs.dropWhile jsonWs

/-- Is `c` a hexadecimal digit (either case)? -/
def isHexDig (c : Char) : Bool :=
  ('0' ≤ c && c ≤ '9') || ('a' ≤ c && c ≤ 'f') || ('A' ≤ c && c ≤ 'F')

/-- Value of a hexadecimal digit. -/
def hexVal (c : Char) : Nat :=
  if c ≤ '9' then c.toNat - 48 else if c ≤ 'F' then c.toNat - 55 else c.toNat - 87

/-- Body of a JSON string after the opening quote, with the strict-mode
escape rules of Python's `json` module (unescaped control characters
are rejected). -/
def parseStrBody : List Char → List Char → Option (String × List Char)
  | acc, '\"' :: rest => some (String.mk acc.reverse, rest)
  | acc, '\\' :: esc =>
      (match esc with
       | '\"' :: r => parseStrBody ('\"' :: acc) r
       | '\\' :: r => parseStrBody ('\\' :: acc) r
       | '/' :: r => parseStrBody ('/' :: acc) r
       | 'b' :: r => parseStrBody ('\x08' :: acc) r
       | 'f' :: r => parseStrBody ('\x0c' :: acc) r
       | 'n' :: r => parseStrBody ('\n' :: acc) r
       | 'r' :: r => parseStrBody ('\r' :: acc) r
       | 't' :: r => parseStrBody ('\t' :: acc) r
       | 'u' :: h1 :: h2 :: h3 :: h4 :: r =>
           if isHexDig h1 && isHexDig h2 && isHexDig h3 && isHexDig h4 then
             parseStrBody
               (Char.ofNat (((hexVal h1 * 16 + hexVal h2) * 16 + hexVal h3) * 16 + hexVal h4) :: acc) r
           else none
       | _ => none)
  | acc, c :: rest => if c.toNat < 32 then none else parseStrBody (c :: acc) rest
  | _, [] => none

/-- Optional fraction part of a JSON number. -/
def parseFrac (cs : List Char) : Option (List Char × List Char) :=
  match cs with
  | '.' :: r =>
      let ds := r.takeWhile Char.isDigit
      if ds.isEmpty then none else some ('.' :: ds, r.dropWhile Char.isDigit)
  | _ => some ([], cs)

/-- Optional exponent part of a JSON number. -/
def parseExp (cs : List Char) : Option (List Char × List Char) :=
  match cs with
  | e :: r =>
      if e == 'e' || e == 'E' then
        match r with
        | '+' :: r2 =>
            let ds := r2.takeWhile Char.isDigit
            if ds.isEmpty then none else some (e :: '+' :: ds, r2.dropWhile Char.isDigit)
        | '-' :: r2 =>
            let ds := r2.takeWhile Char.isDigit
            if ds.isEmpty then none else some (e :: '-' :: ds, r2.dropWhile Char.isDigit)
        | _ =>
            let ds := r.takeWhile Char.isDigit
            if ds.isEmpty then none else some (e :: ds, r.dropWhile Char.isDigit)
      else some ([], cs)
  | [] => some ([], [])

/-- A JSON numeric token: `-? (0 | [1-9][0-9]*) frac? exp?`, kept as its
source text. -/
def parseNum (cs : List Char) : Option (String × List Char) :=
  let sgn : List Char := match cs with | '-' :: _ => ['-'] | _ => []
  let cs1 : List Char := match cs with | '-' :: r => r | _ => cs
  match cs1 with
  | c :: _ =>
      if c == '0' then
        match parseFrac (cs1.drop 1) with
        | none => none
        | some (f, cs2) =>
            match parseExp cs2 with
            | none => none
            | some (e, cs3) => some (String.mk (sgn ++ '0' :: (f ++ e)), cs3)
      else if c.isDigit then
        match parseFrac (cs1.dropWhile Char.isDigit) with
        | none => none
        | some (f, cs2) =>
            match parseExp cs2 with
            | none => none
            | some (e, cs3) => some (String.mk (sgn ++ cs1.takeWhile Char.isDigit ++ f ++ e), cs3)
      else none
  | [] => none

/-- Comma-separated array elements up to the closing bracket. -/
def parseElems (pv : List Char → Option (PyVal × List Char)) :
    Nat → List PyVal → List Char → Option (PyVal × List Char)
  | 0, _, _ => none
  | f + 1, acc, cs =>
      match pv cs with
      | none => none
      | some (v, rest) =>
          match skipWs rest with
          | ',' :: r => parseElems pv f (v :: acc) r
          | ']' :: r => some (.arr (v :: acc).reverse, r)
          | _ => none

/-- Comma-separated `"key": value` members up to the closing brace. -/
def parseMembers (pv : List Char → Option (PyVal × List Char)) :
    Nat → List (String × PyVal) → List Char → Option (PyVal × List Char)
  | 0, _, _ => none
  | f + 1, acc, cs =>
      match skipWs cs with
      | '\"' :: rest =>
          (match parseStrBody [] rest with
           | none => none
           | some (k, r1) =>
               match skipWs r1 with
               | ':' :: r2 =>
                   (match pv r2 with
                    | none => none
                    | some (v, r3) =>
                        match skipWs r3 with
                        | ',' :: r4 => parseMembers pv f ((k, v) :: acc) r4
                        | '\x7d' :: r4 => some (.obj ((k, v) :: acc).reverse, r4)
                        | _ => none)
               | _ => none)
      | _ => none

/-- JSON value parser (fuel-indexed; the fuel bounds nesting depth and is
always sufficient when it exceeds the input length). -/
def parseVal (fuel : Nat) : List Char → Option (PyVal × List Char) :=
  match fuel with
  | 0 => fun _ => none
  | f + 1 => fun cs =>
      match skipWs cs with
      | 'n' :: 'u' :: 'l' :: 'l' :: rest => some (.null, rest)
      | 't' :: 'r' :: 'u' :: 'e' :: rest => some (.bool true, rest)
      | 'f' :: 'a' :: 'l' :: 's' :: 'e' :: rest => some (.bool false, rest)
      | 'N' :: 'a' :: 'N' :: rest => some (.num "NaN", rest)
      | 'I' :: 'n' :: 'f' :: 'i' :: 'n' :: 'i' :: 't' :: 'y' :: rest =>
          some (.num "Infinity", rest)
      | '-' :: 'I' :: 'n' :: 'f' :: 'i' :: 'n' :: 'i' :: 't' :: 'y' :: rest =>
          some (.num "-Infinity", rest)
      | '\"' :: rest =>
          (match parseStrBody [] rest with
           | some (s, r) => some (.str s, r)
           | none => none)
      | '[' :: rest =>
          (match skipWs rest with
           | ']' :: r => some (.arr [], r)
           | _ => parseElems (parseVal f) f [] rest)
      | '\x7b' :: rest =>
          (match skipWs rest with
           | '\x7d' :: r => some (.obj [], r)
           | _ => parseMembers (parseVal f) f [] rest)
      | c :: rest =>
          if c == '-' || c.isDigit then
            match parseNum (c :: rest) with
            | some (t, r) => some (.num t, r)
            | none => none
          else none
      | [] => none

/-- Model of Python `json.loads`: parse one JSON document and reject
trailing garbage; `none` plays the role of `json.JSONDecodeError`. -/
def parseJson (s : String) : Option PyVal :=
  match parseVal (s.length + 1) s.data with
  | some (v, rest) => if (skipWs rest).isEmpty then some v else none
  | none => none

/-- Model of `get_users` (main.py lines 27-33): read `USERS` (default
`"{}"`), `json.loads` it, and fall back to `{}` only when decoding
fails. -/
def get_users (usersEnv : Option String) : PyVal :=
  match parseJson (usersEnv.getD "\x7b\x7d") with
  | some v => v
  | none => PyVal.obj []

example : get_users none = PyVal.obj [] := by rfl

example : get_users (some "not json") = PyVal.obj [] := by rfl

example : get_users (some "[\"bob\"]") = PyVal.arr [PyVal.str "bob"] := by rfl

example : get_users (some " \x7b \"alice\" : \"ab$cd\" , \"bob\" : \"x\" \x7d ") =
    PyVal.obj [("alice", PyVal.str "ab$cd"), ("bob", PyVal.str "x")] := by rfl

example : get_users (some "\x7b\"a\": 1") = PyVal.obj [] := by rfl

example : get_users (some "01") = PyVal.obj [] := by rfl

example : get_users (some "-12.5e+3") = PyVal.num "-12.5e+3" := by rfl

/-! ### Login endpoint (main.py lines 111-123) -/

/-- The JSON body of a successful login response. -/
structure LoginResponse where
  access_token : String
  token_type : String
  username : String

/-- An `HTTPException` as raised by the handler. -/
structure HTTPError where
  status_code : Nat
  detail : String

/-- Model of the `POST /auth/login` handler (main.py lines 111-123),
over the credential mapping in force for the request. -/
def login (users : List (String × String)) (username password : String) :
    Except HTTPError LoginResponse :=
  if authenticate_user users username password then
    Except.ok ⟨create_access_token username, "bearer", username⟩
  else
    Except.error ⟨401, "Invalid username or password"⟩

/-! ### Derived notions used to state the claims -/

/-- `needle in hay` for Python strings: some suffix of `hay` begins with
`needle`. -/
def containsSub (needle : List Char) : List Char → Bool
  | [] => needle.isEmpty
  | c :: cs => startsWithL needle (c :: cs) || containsSub needle cs

/-- The text before the first `$` of a digest — the salt part named by
the specification. -/
def firstSplitSalt (d : String) : String := String.mk (d.data.takeWhile (· != '$'))

/-- The entire text after the first `$` of a digest — the expected-hash
part named by the specification. -/
def firstSplitHash (d : String) : String := String.mk ((d.data.dropWhile (· != '$')).tail)

/-! ### Helper lemmas -/

theorem hexDigit_mem (n : Nat) : hexDigit n ∈ hexDigits := by
  unfold hexDigit
  have h : n % 16 < 16 := Nat.mod_lt _ (by norm_num)
  set m := n % 16 with hm
  interval_cases m <;> decide

theorem hexDigit_ne_dollar (n : Nat) : hexDigit n ≠ '$' := by
  have h : ∀ c ∈ hexDigits, c ≠ '$' := by decide
  exact h _ (hexDigit_mem n)

theorem dollar_not_mem_hexOfBytes (bs : List Nat) : '$' ∉ hexOfBytes bs := by
  induction bs with
  | nil => simp [hexOfBytes]
  | cons b bs ih =>
      simp only [hexOfBytes, List.mem_cons, not_or]
      exact ⟨Ne.symm (hexDigit_ne_dollar _), Ne.symm (hexDigit_ne_dollar _), ih⟩

theorem mem_hexDigits_of_mem_hexOfBytes (bs : List Nat) (c : Char) (h : c ∈ hexOfBytes bs) :
    c ∈ hexDigits := by
  induction bs with
  | nil => cases h
  | cons b bs ih =>
      simp only [hexOfBytes, List.mem_cons] at h
      rcases h with rfl | rfl | h
      · exact hexDigit_mem _
      · exact hexDigit_mem _
      · exact ih h

theorem length_hexOfBytes (bs : List Nat) : (hexOfBytes bs).length = 2 * bs.length := by
  induction bs with
  | nil => rfl
  | cons b bs ih => simp [hexOfBytes, ih]; omega

theorem sha256hex_data_length (s : String) : (sha256hex s).data.length = 64 := rfl

theorem dollar_not_mem_sha256hex (s : String) : '$' ∉ (sha256hex s).data :=
  dollar_not_mem_hexOfBytes _

theorem splitAux_of_not_mem (sep : Char) (l : List Char) (h : sep ∉ l) (acc : List Char) :
    splitCharsAux sep acc l = [acc.reverse ++ l] := by
  induction l generalizing acc with
  | nil => simp [splitCharsAux]
  | cons c cs ih =>
      simp only [List.mem_cons, not_or] at h
      simp only [splitCharsAux]
      rw [if_neg (fun hc => h.1 hc.symm), ih h.2]
      simp

theorem splitAux_append_sep (sep : Char) (l : List Char) (h : sep ∉ l) (acc r : List Char) :
    splitCharsAux sep acc (l ++ sep :: r) = (acc.reverse ++ l) :: splitCharsAux sep [] r := by
  induction l generalizing acc with
  | nil => simp [splitCharsAux]
  | cons c cs ih =>
      simp only [List.mem_cons, not_or] at h
      simp only [List.cons_append, splitCharsAux]
      rw [if_neg (fun hc => h.1 hc.symm)]
      change splitCharsAux sep (c :: acc) (cs ++ sep :: r) = _
      rw [ih h.2]
      simp

theorem splitAux_length (sep : Char) (l acc : List Char) :
    (splitCharsAux sep acc l).length = l.count sep + 1 := by
  induction l generalizing acc with
  | nil => simp [splitCharsAux]
  | cons c cs ih =>
      simp only [splitCharsAux]
      by_cases hc : c = sep
      · rw [if_pos hc, hc]
        simp [List.count_cons, ih]
      · rw [if_neg hc]
        rw [ih]
        simp [List.count_cons, hc]

theorem split_at_first (sep : Char) (l : List Char) (h : sep ∈ l) :
    l.takeWhile (· != sep) ++ sep :: (l.dropWhile (· != sep)).tail = l ∧
      sep ∉ l.takeWhile (· != sep) := by
  induction l with
  | nil => cases h
  | cons c cs ih =>
      by_cases hc : c = sep
      · subst hc
        simp [List.takeWhile, List.dropWhile]
      · have hm : sep ∈ cs := by
          cases h with
          | head => exact absurd rfl hc
          | tail _ h => exact h
        have hb : (c != sep) = true := bne_iff_ne.mpr hc
        obtain ⟨h1, h2⟩ := ih hm
        constructor
        · simp only [List.takeWhile, List.dropWhile, hb, List.cons_append]
          rw [h1]
        · simp only [List.takeWhile, hb, List.mem_cons, not_or]
          exact ⟨fun hs => hc hs.symm, h2⟩

theorem startsWithL_iff (p l : List Char) : startsWithL p l = true ↔ ∃ r, l = p ++ r := by
  induction p generalizing l with
  | nil => simp [startsWithL]
  | cons a as ih =>
      cases l with
      | nil => simp [startsWithL]
      | cons b bs =>
          simp only [startsWithL, Bool.and_eq_true, beq_iff_eq, ih, List.cons_append,
            List.cons.injEq]
          constructor
          · rintro ⟨rfl, r, rfl⟩
            exact ⟨r, rfl, rfl⟩
          · rintro ⟨r, rfl, rfl⟩
            exact ⟨rfl, r, rfl⟩

theorem endsWithL_iff (s l : List Char) : endsWithL s l = true ↔ ∃ m, l = m ++ s := by
  unfold endsWithL
  rw [startsWithL_iff]
  constructor
  · rintro ⟨r, hr⟩
    refine ⟨r.reverse, ?_⟩
    have := congrArg List.reverse hr
    simpa using this
  · rintro ⟨m, rfl⟩
    exact ⟨m.reverse, by simp⟩

theorem verify_create_token (u : String) : verify_token (create_access_token u) = some u := by
  have hdata : (create_access_token u).data = "user_".data ++ u.data ++ "_token".data := by
    simp [create_access_token, String.data_append]
  have hstart : startsWithL "user_".data (create_access_token u).data = true := by
    rw [hdata, List.append_assoc]
    exact (startsWithL_iff _ _).mpr ⟨_, rfl⟩
  have hend : endsWithL "_token".data (create_access_token u).data = true := by
    rw [hdata]
    exact (endsWithL_iff _ _).mpr ⟨_, rfl⟩
  have h5 : ("user_".data).length = 5 := rfl
  have h6 : ("_token".data).length = 6 := rfl
  have hlen : (create_access_token u).data.length = u.data.length + 11 := by
    rw [hdata]
    simp [List.length_append, h5, h6]
  unfold verify_token
  rw [hstart, hend]
  simp only [Bool.and_self, if_true]
  have hassoc : "user_".data ++ u.data ++ "_token".data =
      ("user_".data ++ u.data) ++ "_token".data := rfl
  have htake : ((create_access_token u).data.take ((create_access_token u).data.length - 6)) =
      "user_".data ++ u.data := by
    rw [hlen, hdata, hassoc]
    exact List.take_left' (by simp [List.length_append, h5])
  rw [htake, List.drop_left' h5]

/-! ### Claims -/

/-- C1: for every password string `p`, verifying `p` against the digest
freshly produced for `p` succeeds, for any salt value the hash function
may draw: `verify_password p (get_password_hash p salt) = true`. -/
theorem C1_verify_password_of_fresh_hash (p : String) (salt : List Nat) :
    verify_password p (get_password_hash p salt) = true := by
  have hS : '$' ∉ (String.mk (hexOfBytes salt)).data := dollar_not_mem_hexOfBytes salt
  have hH : '$' ∉ (sha256hex (p ++ String.mk (hexOfBytes salt))).data :=
    dollar_not_mem_sha256hex _
  unfold get_password_hash verify_password splitDollar
  rw [show (String.mk (hexOfBytes salt) ++ "$" ++ sha256hex (p ++ String.mk (hexOfBytes salt))).data
      = (String.mk (hexOfBytes salt)).data ++
          '$' :: (sha256hex (p ++ String.mk (hexOfBytes salt))).data by
    simp [String.data_append]]
  rw [splitAux_append_sep '$' _ hS []]
  rw [splitAux_of_not_mem '$' _ hH []]
  exact beq_self_eq_true _

/-- C3 counterexample: the digest `"$" ++ sha256hex "a"` has an empty
salt part, yet `verify_password "a"` accepts it instead of failing
closed. -/
theorem C3_counterexample :
    ("$" ++ sha256hex "a").data.takeWhile (· != '$') = [] ∧
      verify_password "a" ("$" ++ sha256hex "a") = true :=
  ⟨rfl, rfl⟩

/-- C3 (amended): `verify_password p d` returns `false` and never raises
whenever `d` contains no `$`, or `d`'s hash part is empty (`d` is some
`$`-free string followed by a single trailing `$`).  An empty salt part
is not rejected: verification then proceeds with the empty salt and can
succeed, as the counterexample shows. -/
theorem C3_amended_malformed_digest (p d : String)
    (h : '$' ∉ d.data ∨ ∃ s : String, '$' ∉ s.data ∧ d = s ++ "$") :
    verify_password p d = false := by
  rcases h with h | ⟨s, hs, rfl⟩
  · unfold verify_password splitDollar
    rw [splitAux_of_not_mem '$' _ h []]
    rfl
  · unfold verify_password splitDollar
    rw [show (s ++ "$").data = s.data ++ '$' :: [] by simp [String.data_append]]
    rw [splitAux_append_sep '$' _ hs []]
    show (sha256hex (p ++ String.mk s.data) == String.mk []) = false
    apply beq_eq_false_iff_ne.mpr
    intro he
    have hlen := congrArg String.length he
    rw [show (sha256hex (p ++ String.mk s.data)).length = 64 from
      sha256hex_data_length _] at hlen
    exact absurd hlen (by norm_num)

theorem C3_amended_witness :
    ('$' ∉ ("abc" : String).data ∨ ∃ s : String, '$' ∉ s.data ∧ ("abc" : String) = s ++ "$") ∧
      verify_password "x" "abc" = false :=
  ⟨Or.inl (by decide), C3_amended_malformed_digest "x" "abc" (Or.inl (by decide))⟩

/-- C5: for every plaintext `p` and digest `d` containing at least one
`$`, `verify_password p d` returns `true` exactly when the hex SHA-256
digest of `p ++ salt` equals `expectedHash`, where `salt` is the text
before the first `$` of `d` and `expectedHash` the entire remainder. -/
theorem C5_first_split_characterization (p d : String) (h : '$' ∈ d.data) :
    verify_password p d = (sha256hex (p ++ firstSplitSalt d) == firstSplitHash d) := by
  obtain ⟨hsplit, hnot⟩ := split_at_first '$' d.data h
  by_cases h2 : '$' ∈ (d.data.dropWhile (· != '$')).tail
  · -- at least two `$`: both sides are `false`
    have hfalse : verify_password p d = false := by
      unfold verify_password splitDollar
      rw [← hsplit, splitAux_append_sep '$' _ hnot []]
      have hlen2 : (splitCharsAux '$' [] ((d.data.dropWhile (· != '$')).tail)).length =
          ((d.data.dropWhile (· != '$')).tail).count '$' + 1 := splitAux_length '$' _ []
      have hc2 : 0 < ((d.data.dropWhile (· != '$')).tail).count '$' :=
        List.count_pos_iff.mpr h2
      rcases hL : splitCharsAux '$' [] ((d.data.dropWhile (· != '$')).tail) with _ | ⟨x, xs⟩
      · rw [hL] at hlen2
        simp at hlen2
      · rcases xs with _ | ⟨y, ys⟩
        · rw [hL] at hlen2
          simp at hlen2
          omega
        · rfl
    rw [hfalse]
    symm
    apply beq_eq_false_iff_ne.mpr
    intro he
    have : '$' ∈ (firstSplitHash d).data := h2
    rw [← he] at this
    exact dollar_not_mem_sha256hex _ this
  · -- exactly one `$`
    unfold verify_password splitDollar
    rw [← hsplit, splitAux_append_sep '$' _ hnot [], splitAux_of_not_mem '$' _ h2 []]
    rfl

theorem C5_witness : '$' ∈ ("x$y" : String).data ∧
    verify_password "a" "x$y" =
      (sha256hex ("a" ++ firstSplitSalt "x$y") == firstSplitHash "x$y") :=
  ⟨by decide, C5_first_split_characterization "a" "x$y" (by decide)⟩

/-- C10: every digest produced by `get_password_hash` from a 16-byte
salt is well-formed: it is 32 hexadecimal characters (the salt hex),
one `$`, then 64 hexadecimal characters (the SHA-256 hex digest), and
splitting it on `$` yields exactly those two non-empty parts. -/
theorem C10_digest_well_formed (p : String) (salt : List Nat)
    (hlen : salt.length = 16) (_hbytes : ∀ b ∈ salt, b < 256) :
    ∃ saltHex h : String,
      get_password_hash p salt = saltHex ++ "$" ++ h ∧
      saltHex.length = 32 ∧ h.length = 64 ∧
      (∀ c ∈ saltHex.data, c ∈ hexDigits) ∧ (∀ c ∈ h.data, c ∈ hexDigits) ∧
      splitDollar (get_password_hash p salt) = [saltHex, h] ∧
      saltHex ≠ "" ∧ h ≠ "" := by
  refine ⟨String.mk (hexOfBytes salt), sha256hex (p ++ String.mk (hexOfBytes salt)),
    rfl, ?_, sha256hex_data_length _, ?_, ?_, ?_, ?_, ?_⟩
  · show (hexOfBytes salt).length = 32
    rw [length_hexOfBytes, hlen]
  · exact fun c hc => mem_hexDigits_of_mem_hexOfBytes _ _ hc
  · exact fun c hc => mem_hexDigits_of_mem_hexOfBytes _ _ hc
  · unfold get_password_hash splitDollar
    rw [show (String.mk (hexOfBytes salt) ++ "$" ++
          sha256hex (p ++ String.mk (hexOfBytes salt))).data
        = (String.mk (hexOfBytes salt)).data ++
            '$' :: (sha256hex (p ++ String.mk (hexOfBytes salt))).data by
      simp [String.data_append]]
    rw [splitAux_append_sep '$' _ (dollar_not_mem_hexOfBytes salt) []]
    rw [splitAux_of_not_mem '$' _ (dollar_not_mem_sha256hex _) []]
    rfl
  · intro he
    have h32 : (String.mk (hexOfBytes salt)).length = 32 := by
      show (hexOfBytes salt).length = 32
      rw [length_hexOfBytes, hlen]
    rw [he] at h32
    exact absurd h32 (by decide)
  · intro he
    have h64 : (sha256hex (p ++ String.mk (hexOfBytes salt))).length = 64 :=
      sha256hex_data_length _
    rw [he] at h64
    exact absurd h64 (by decide)

theorem C10_witness :
    (List.replicate 16 0).length = 16 ∧ (∀ b ∈ List.replicate 16 (0 : Nat), b < 256) ∧
      (∃ saltHex h : String,
        get_password_hash "a" (List.replicate 16 0) = saltHex ++ "$" ++ h ∧
        saltHex.length = 32 ∧ h.length = 64 ∧
        (∀ c ∈ saltHex.data, c ∈ hexDigits) ∧ (∀ c ∈ h.data, c ∈ hexDigits) ∧
        splitDollar (get_password_hash "a" (List.replicate 16 0)) = [saltHex, h] ∧
        saltHex ≠ "" ∧ h ≠ "") :=
  ⟨by decide, by decide,
    C10_digest_well_formed "a" (List.replicate 16 0) (by decide) (by decide)⟩

/-- C2: for every non-empty username `u` containing neither `"user_"`
nor `"_token"`, verifying the token issued for `u` recovers `u` exactly:
`verify_token (create_access_token u) = some u`. -/
theorem C2_roundtrip (u : String) (_h1 : u ≠ "")
    (_h2 : containsSub "user_".data u.data = false)
    (_h3 : containsSub "_token".data u.data = false) :
    verify_token (create_access_token u) = some u :=
  verify_create_token u

theorem C2_witness :
    (("alice" : String) ≠ "" ∧ containsSub "user_".data ("alice" : String).data = false ∧
        containsSub "_token".data ("alice" : String).data = false) ∧
      verify_token (create_access_token "alice") = some "alice" :=
  ⟨⟨by decide, by decide, by decide⟩, C2_roundtrip "alice" (by decide) (by decide) (by decide)⟩

/-- C4 counterexample: `"user_token"` has only 10 characters, fewer than
the claimed minimum of 11, yet `verify_token` returns the empty-string
identity `some ""` rather than `none`. -/
theorem C4_counterexample :
    verify_token "user_token" = some "" ∧ ("user_token" : String).data.length < 11 :=
  ⟨rfl, by decide⟩

/-- C4 (amended): `verify_token t` returns a username exactly when `t`
starts with `"user_"` and ends with `"_token"`; there is no minimal
length requirement — the single overlapping ten-character string
`"user_token"` passes both affix checks and yields the empty username —
and on any string failing an affix check the function returns `none`
and never raises. -/
theorem C4_amended_structural_check (t : String) :
    (∃ u, verify_token t = some u) ↔
      (∃ r, t.data = "user_".data ++ r) ∧ (∃ m, t.data = m ++ "_token".data) := by
  constructor
  · intro ⟨u, hu⟩
    unfold verify_token at hu
    by_cases hcond :
        (startsWithL "user_".data t.data && endsWithL "_token".data t.data) = true
    · rw [Bool.and_eq_true] at hcond
      exact ⟨(startsWithL_iff _ _).mp hcond.1, (endsWithL_iff _ _).mp hcond.2⟩
    · rw [if_neg hcond] at hu
      cases hu
  · rintro ⟨⟨r, hr⟩, ⟨m, hm⟩⟩
    have hsw : startsWithL "user_".data t.data = true := (startsWithL_iff _ _).mpr ⟨r, hr⟩
    have hew : endsWithL "_token".data t.data = true := (endsWithL_iff _ _).mpr ⟨m, hm⟩
    unfold verify_token
    rw [hsw, hew]
    exact ⟨_, rfl⟩

/-- C6: for every username absent from the credential mapping,
`authenticate_user` returns `false` regardless of the password. -/
theorem C6_unknown_user_fails (users : List (String × String)) (u p : String)
    (h : u ∉ users.map Prod.fst) :
    authenticate_user users u p = false := by
  unfold authenticate_user
  rw [if_neg (fun hc => h (List.elem_iff.mp hc))]

theorem C6_witness :
    ("bob" : String) ∉ ([(("alice" : String), ("h" : String))].map Prod.fst) ∧
      authenticate_user [("alice", "h")] "bob" "pw" = false :=
  ⟨by decide, C6_unknown_user_fails [("alice", "h")] "bob" "pw" (by decide)⟩

/-- C7: token verification never consults the credential store — its
result is identical under any two values of the `USERS` configuration —
and a hand-edited token naming any (possibly non-configured) user `u`
is accepted structurally and yields `u`. -/
theorem C7_token_ignores_credential_store :
    (∀ (e1 e2 : Option String) (t : String), verify_token_env e1 t = verify_token_env e2 t) ∧
      (∀ (e : Option String) (u : String), verify_token_env e (create_access_token u) = some u) :=
  ⟨fun _ _ _ => rfl, fun _ u => verify_create_token u⟩

/-- C8: the login operation succeeds exactly when `authenticate_user`
returns `true`; on success it returns the issued token, token type
`"bearer"` and the submitted username, on failure a 401 error with the
fixed detail `"Invalid username or password"`. -/
theorem C8_login_behaviour (users : List (String × String)) (u p : String) :
    ((∃ resp, login users u p = Except.ok resp) ↔ authenticate_user users u p = true) ∧
      (authenticate_user users u p = true →
        login users u p = Except.ok ⟨create_access_token u, "bearer", u⟩) ∧
      (authenticate_user users u p = false →
        login users u p = Except.error ⟨401, "Invalid username or password"⟩) := by
  by_cases h : authenticate_user users u p = true
  · refine ⟨⟨fun _ => h, fun _ => ?_⟩, fun _ => ?_, fun hf => ?_⟩
    · exact ⟨_, by unfold login; rw [if_pos h]⟩
    · unfold login
      rw [if_pos h]
    · rw [h] at hf
      cases hf
  · have hf : authenticate_user users u p = false := by
      cases hb : authenticate_user users u p
      · rfl
      · exact absurd hb h
    refine ⟨⟨fun ⟨resp, hr⟩ => ?_, fun ht => absurd ht h⟩, fun ht => absurd ht h, fun _ => ?_⟩
    · unfold login at hr
      rw [if_neg h] at hr
      cases hr
    · unfold login
      rw [if_neg h]

theorem C8_witness :
    login [("alice", get_password_hash "pw" [0, 1, 2, 3, 4, 5, 6, 7, 8, 9, 10, 11, 12, 13, 14, 15])]
        "alice" "pw" =
      Except.ok ⟨create_access_token "alice", "bearer", "alice"⟩ ∧
    login [("alice", get_password_hash "pw" [0, 1, 2, 3, 4, 5, 6, 7, 8, 9, 10, 11, 12, 13, 14, 15])]
        "bob" "pw" =
      Except.error ⟨401, "Invalid username or password"⟩ :=
  ⟨(C8_login_behaviour _ "alice" "pw").2.1 (by rfl),
    (C8_login_behaviour _ "bob" "pw").2.2 (by rfl)⟩

/-- C9 counterexample: `USERS = "[\"bob\"]"` is well-formed JSON but not
an object mapping usernames to digests; `json.loads` succeeds on it, so
`get_users` returns the list `["bob"]`, not the empty mapping. -/
theorem C9_counterexample :
    get_users (some "[\"bob\"]") = PyVal.arr [PyVal.str "bob"] ∧
      get_users (some "[\"bob\"]") ≠ PyVal.obj [] :=
  ⟨rfl, fun h => PyVal.noConfusion h⟩

/-- C9 (amended): when the `USERS` environment variable is absent or
fails to parse as JSON, `get_users` returns the empty object (zero
users), and authentication against the empty mapping fails for every
username; a `USERS` value that parses to a non-object JSON value is
returned as-is instead, as the counterexample shows. -/
theorem C9_amended_degrades_to_empty (env : Option String)
    (h : env = none ∨ ∃ s, env = some s ∧ parseJson s = none) :
    get_users env = PyVal.obj [] ∧ ∀ u p, authenticate_user [] u p = false := by
  refine ⟨?_, fun u p => rfl⟩
  rcases h with rfl | ⟨s, rfl, hp⟩
  · rfl
  · show (match parseJson s with | some v => v | none => PyVal.obj []) = PyVal.obj []
    rw [hp]

theorem C9_amended_witness :
    ((some "not json" : Option String) = none ∨
        ∃ s, (some "not json" : Option String) = some s ∧ parseJson s = none) ∧
      (get_users (some "not json") = PyVal.obj [] ∧
        ∀ u p, authenticate_user [] u p = false) :=
  ⟨Or.inr ⟨"not json", rfl, rfl⟩,
    C9_amended_degrades_to_empty (some "not json") (Or.inr ⟨"not json", rfl, rfl⟩)⟩

end LegalInfographics
